import Mathlib

/-!
Verification development for the daily-history pipeline in
scripts/history.py of the stock-market repository.

Modelling conventions (shallow embedding):
* A calendar date is a day number (Nat).  The source stores dates as ISO
  8601 strings whose lexicographic order coincides with chronological
  order, so comparisons on day numbers embed comparisons on those strings.
* A close is an Int (the claims never use fractional arithmetic).
* Python dicts keyed by date are embedded as association lists with the
  same insertion/overwrite semantics (`dinsert`).
* Python list.sort / sorted(...) are embedded with List.insertionSort,
  which agrees with any correct sort on the orderings used here.
* Network I/O is embedded by passing the upstream outcome (status, body
  shape, transport failure) as an explicit argument; a Python exception
  escaping a function is embedded as Except.error.
* datetime parsing is external library behaviour and is passed in as a
  parameter where the dynamic model needs it.
-/

/-- Canonical time-series point of the pipeline: a calendar-date day
number and a closing price, the typed form of one element of the JSON
array written to public/history/SYMBOL.json. -/
structure Pt where
  date : Nat
  close : Int
deriving DecidableEq, Inhabited

/-- Date ordering on points, the key `lambda x: x["date"]` used by every
sort call in scripts/history.py. -/
def ptLe (a b : Pt) : Prop := a.date ≤ b.date

instance : DecidableRel ptLe := fun a b => Nat.decLe a.date b.date

instance : IsTotal Pt ptLe := ⟨fun a b => Nat.le_total a.date b.date⟩

instance : IsTrans Pt ptLe := ⟨fun _ _ _ h h2 => Nat.le_trans h h2⟩

/-- Embeds coverage_ok (scripts/history.py lines 341-354): empty data is
insufficient; otherwise the list is sorted by date, `first`/`last` are its
ends, and the result requires at least 200 points, `first` at or before
the cutoff, and a gap of at most 3 days between `last` and today.  With
dates as day numbers the date-parse-failure branch (gap = 999) cannot
arise; `today` stands for datetime.now(timezone.utc).date(). -/
def coverage_ok (data : List Pt) (min_from_date : Nat) (today : Nat) : Bool :=
  if data.isEmpty then false
  else
    let sorted := data.insertionSort ptLe
    let first := ((sorted.head?).getD default).date
    let last := ((sorted.getLast?).getD default).date
    let gap : Int := (today : Int) - (last : Int)
    decide (200 ≤ data.length) && decide (first ≤ min_from_date) && decide (gap ≤ 3)

/-- Embeds one Python dict assignment `m[d] = c` on the association-list
representation of the dict: overwrite in place if the key is present,
append otherwise. -/
def dinsert (m : List (Nat × Int)) (d : Nat) (c : Int) : List (Nat × Int) :=
  if m.any (fun q => q.1 = d) then
    m.map (fun q => if q.1 = d then (d, c) else q)
  else m ++ [(d, c)]

/-- Embeds the Python dict lookup `m[d]` (total with a junk value on a
missing key; merge_history only looks up keys that are present). -/
def dlookup (m : List (Nat × Int)) (d : Nat) : Int :=
  match m.find? (fun q => q.1 = d) with
  | some q => q.2
  | none => 0

/-- Keys of the embedded dict, in insertion order (Python `m.keys()`). -/
def dkeys (m : List (Nat × Int)) : List Nat := m.map Prod.fst

/-- Embeds the dict-building loop of merge_history: insert date/close of
every point in order.  The `isinstance` guards of the source always hold
under the typed model. -/
def buildMap (l : List Pt) : List (Nat × Int) :=
  l.foldl (fun m p => dinsert m p.date p.close) []

/-- Close attached to date `d` by the last point of `l` carrying `d`
(later points overwrite earlier ones), none if `d` is absent. -/
def lastClose (l : List Pt) (d : Nat) : Option Int :=
  match l with
  | [] => none
  | p :: t =>
    match lastClose t d with
    | some c => some c
    | none => if p.date = d then some p.close else none

/-- Close recorded for date `d` in series `s` (first matching point). -/
def seriesClose (s : List Pt) (d : Nat) : Option Int :=
  (s.find? (fun p => p.date = d)).map Pt.close

/-- Embeds merge_history (scripts/history.py lines 357-366): build a dict
from old points then new points, then emit the entries sorted by key. -/
def merge_history (old new : List Pt) : List Pt :=
  let m := buildMap (old ++ new)
  ((dkeys m).insertionSort (· ≤ ·)).map (fun d => ⟨d, dlookup m d⟩)

/-- Embeds the guarded fallback blocks of main (scripts/history.py lines
392-448).  Each chain element is the exception-guarded result of one
provider adapter in chain order (worker, finnhub, akshare, alpha, stooq,
yahoo as enabled by configuration); every block runs under the guard
`if not fresh:`, so the first non-empty result is kept. -/
def acquire : List (List Pt) → List Pt
  | [] => []
  | r :: rest => if r.isEmpty then acquire rest else r

/-- Number of adapters the fallback logic actually invokes: every adapter
up to and including the first one returning non-empty data. -/
def acquireCalls : List (List Pt) → Nat
  | [] => 0
  | r :: rest => if r.isEmpty then acquireCalls rest + 1 else 1

/-- Effect of one per-symbol iteration of main on the symbol's file. -/
inductive StepResult where
  | skipCovered
  | skipNoData
  | write (s : List Pt)
deriving DecidableEq

/-- Embeds the per-symbol body of main (scripts/history.py lines
385-456): skip the fetch when coverage is sufficient; otherwise run the
provider chain; if both fresh and existing are empty skip writing;
otherwise write the merge of existing and fresh. -/
def processSymbol (existing : List Pt) (cutoff today : Nat)
    (chain : List (List Pt)) : StepResult :=
  if coverage_ok existing cutoff today then .skipCovered
  else
    let fresh := acquire chain
    if fresh.isEmpty && existing.isEmpty then .skipNoData
    else .write (merge_history existing fresh)

/-- Outcome of one HTTP request as seen by an adapter: a transport-level
exception from requests, or a response with a status code and a body of
provider-specific shape. -/
inductive HttpOutcome (β : Type) where
  | transportError (msg : String)
  | response (status : Nat) (body : β)

/-- One element of the JSON array returned by the Cloudflare worker.  The
Option fields encode a missing or wrongly-typed date/close, mirroring the
isinstance checks of the source. -/
inductive WItem where
  | notDict
  | record (date : Option Nat) (close : Option Int)
deriving DecidableEq

/-- Body shapes fetch_daily_worker distinguishes after a 2xx response. -/
inductive WBody where
  | notJson
  | notList
  | list (items : List WItem)
deriving DecidableEq

/-- Embeds the normalization loop of fetch_daily_worker (lines 115-124):
keep records whose date and close have the right types, then sort by
date. -/
def normalizeWorker (items : List WItem) : List Pt :=
  (items.filterMap (fun it =>
    match it with
    | .notDict => none
    | .record d c =>
      match d, c with
      | some d, some c => some (Pt.mk d c)
      | _, _ => none)).insertionSort ptLe

/-- Embeds fetch_daily_worker (scripts/history.py lines 72-127).
Except.error embeds a Python exception escaping the function:
raise_for_status on a 4xx/5xx status, RuntimeError on a non-JSON body, a
non-list payload, or an empty normalized payload.  `configured` is
whether YAHOO_WORKER_URL is set; 404 returns empty. -/
def fetch_daily_worker (configured : Bool) (out : HttpOutcome WBody) :
    Except String (List Pt) :=
  if !configured then .ok []
  else
    match out with
    | .transportError m => .error m
    | .response status body =>
      if status = 404 then .ok []
      else if 400 ≤ status then .error "HTTPError"
      else
        match body with
        | .notJson => .error "worker payload not JSON"
        | .notList => .error "worker payload invalid"
        | .list items =>
          let o := normalizeWorker items
          if o.isEmpty then .error "worker payload empty" else .ok o

/-- Body shapes fetch_daily_finnhub distinguishes: non-JSON body, JSON
that is not a dict, or a dict with its status field, closes `c` and
timestamps `t`. -/
inductive FBody where
  | notJson
  | notDict
  | dict (sOk : Bool) (c : List Int) (t : List Nat)
deriving DecidableEq

/-- Embeds fetch_daily_finnhub (scripts/history.py lines 44-69): raises
on 4xx/5xx, on a body that is not a JSON dict with s = "ok", and on
empty or mismatched c/t arrays; otherwise zips timestamps with closes
and sorts ascending. -/
def fetch_daily_finnhub (out : HttpOutcome FBody) : Except String (List Pt) :=
  match out with
  | .transportError m => .error m
  | .response status body =>
    if 400 ≤ status then .error "HTTPError"
    else
      match body with
      | .notJson => .error "payload not JSON"
      | .notDict => .error "history fetch failed"
      | .dict sOk c t =>
        if !sOk then .error "history fetch failed"
        else if c.isEmpty || t.isEmpty || c.length != t.length then
          .error "history payload invalid"
        else .ok (((t.zip c).map (fun x => Pt.mk x.1 x.2)).insertionSort ptLe)

/-- Upstream outcomes that the spec classifies as failures for the worker
adapter: transport error, non-success status, unexpected payload shape,
or empty payload. -/
def workerFailure : HttpOutcome WBody → Bool
  | .transportError _ => true
  | .response status body =>
    decide (400 ≤ status) || status == 404 ||
    (match body with
     | .notJson => true
     | .notList => true
     | .list items => (normalizeWorker items).isEmpty)

/-- Upstream outcomes that the spec classifies as failures for the
finnhub adapter. -/
def finnhubFailure : HttpOutcome FBody → Bool
  | .transportError _ => true
  | .response status body =>
    decide (400 ≤ status) ||
    (match body with
     | .notJson => true
     | .notDict => true
     | .dict sOk c t => !sOk || c.isEmpty || t.isEmpty || c.length != t.length)

/-- Embeds the try/except wrapper main puts around every adapter call
(for example lines 396-401): a raised exception leaves fresh empty. -/
def guardFetch (r : Except String (List Pt)) : List Pt :=
  match r with
  | .ok v => v
  | .error _ => []

/-- Outcome of one Yahoo chart request attempt inside fetch_daily_yahoo:
a 429 status, any caught exception (transport, bad status, parse), an
empty chart.result (which breaks to the next host), or a payload of
timestamp/close pairs where a close may be null. -/
inductive YOut where
  | rateLimited
  | failed
  | noResult
  | payload (pts : List (Nat × Option Int))
deriving DecidableEq

/-- Embeds the payload normalization of fetch_daily_yahoo (lines
319-324): drop null closes, sort by date. -/
def normalizeYahoo (pts : List (Nat × Option Int)) : List Pt :=
  (pts.filterMap (fun tc => tc.2.map (fun c => Pt.mk tc.1 c))).insertionSort ptLe

/-- Embeds the attempt loop of fetch_daily_yahoo for one host: a 429 or a
caught exception moves to the next attempt, an empty chart.result breaks
to the next host, a payload is returned immediately.  The caller bounds
the attempts to 3 (range(1, 4) in the source). -/
def yahooHostLoop : List YOut → Option (List Pt)
  | [] => none
  | o :: rest =>
    match o with
    | .rateLimited => yahooHostLoop rest
    | .failed => yahooHostLoop rest
    | .noResult => none
    | .payload pts => some (normalizeYahoo pts)

/-- Embeds fetch_daily_yahoo (scripts/history.py lines 294-328): two
hosts, at most 3 attempts each, empty result if both are exhausted.
`h1` and `h2` list the upstream outcome of each successive attempt
against query1 and query2. -/
def fetch_daily_yahoo (h1 h2 : List YOut) : List Pt :=
  match yahooHostLoop (h1.take 3) with
  | some pts => pts
  | none =>
    match yahooHostLoop (h2.take 3) with
    | some pts => pts
    | none => []

/-- JSON values, the possible results of json.loads on an existing
record file. -/
inductive Json where
  | null
  | num (n : Int)
  | str (s : String)
  | arr (xs : List Json)
  | obj (fields : List (String × Json))

/-- Python truthiness of a JSON value (`if not data`). -/
def jsonTruthy : Json → Bool
  | .null => false
  | .num n => n != 0
  | .str s => s != ""
  | .arr xs => !xs.isEmpty
  | .obj fs => !fs.isEmpty

/-- Embeds the subscript x["date"] applied by the sort key and the
first/last reads of coverage_ok to one element of a loaded JSON array:
KeyError on a dict without the key, TypeError on a non-dict element or a
date that is not a string (non-string dates make the sort or the later
string comparison raise). -/
def elemDate : Json → Except String String
  | .obj fs =>
    match fs.find? (fun kv => kv.1 == "date") with
    | some kv =>
      match kv.2 with
      | .str s => .ok s
      | _ => .error "TypeError: unorderable date"
    | none => .error "KeyError: date"
  | _ => .error "TypeError: not subscriptable"

/-- Dates of every element of a loaded JSON array, or the first error
raised while touching them. -/
def datesOf : List Json → Except String (List String)
  | [] => .ok []
  | x :: t =>
    match elemDate x with
    | .error e => .error e
    | .ok d =>
      match datesOf t with
      | .error e => .error e
      | .ok ds => .ok (d :: ds)

/-- Embeds load_existing (scripts/history.py lines 331-338) over the
possible states of the record file: none is an absent file, some none a
present file json.loads raises on, some (some j) a file parsing to j.
Absent and unparsable both yield the empty list. -/
def load_existing (file : Option (Option Json)) : Json :=
  match file with
  | none => Json.arr []
  | some none => Json.arr []
  | some (some j) => j

/-- Embeds coverage_ok applied to a value of unconstrained JSON shape, as
main does with the result of load_existing.  Except.error embeds the
exceptions Python raises on non-list data (no sort attribute) or on
elements without a string date.  `parseDate` stands for
datetime.fromisoformat; a date it cannot parse yields gap 999 exactly as
in the source. -/
def coverage_ok_dyn (parseDate : String → Option Nat) (data : Json)
    (min_from_date : String) (today : Nat) : Except String Bool :=
  if !jsonTruthy data then .ok false
  else
    match data with
    | .arr xs =>
      match datesOf xs with
      | .error e => .error e
      | .ok ds =>
        let sorted := ds.insertionSort (· ≤ ·)
        let first := (sorted.head?).getD ""
        let last := (sorted.getLast?).getD ""
        let gap : Int :=
          match parseDate last with
          | some d => (today : Int) - (d : Int)
          | none => 999
        .ok (decide (200 ≤ xs.length) && decide (first ≤ min_from_date) &&
             decide (gap ≤ 3))
    | _ => .error "AttributeError: no sort"

/-- Python str.lower over the character-list model of Python strings. -/
def pyLower (s : List Char) : List Char := s.map Char.toLower

/-- Python str.split(".") over the character-list model; the last element
of the result is what rsplit(".", 1)[-1] yields. -/
def splitOnDot (s : List Char) : List (List Char) :=
  s.foldr (fun c acc =>
    match acc with
    | [] => if c = '.' then [[], []] else [[c]]
    | a :: rest => if c = '.' then [] :: a :: rest else (c :: a) :: rest) [[]]

/-- Embeds the symbol gating of fetch_daily_stooq (scripts/history.py
lines 172-180): lower-case the symbol; a dotted symbol whose suffix after
the last dot is not "us" is rejected (none, no request); otherwise the
dotted symbol is used as is, and an undotted symbol gets ".us" appended. -/
def stooqQuerySymbol (symbol : List Char) : Option (List Char) :=
  let sym := pyLower symbol
  if sym.contains '.' then
    let suff := (splitOnDot sym).getLastD []
    if suff ≠ ['u', 's'] then none else some sym
  else some (sym ++ ['.', 'u', 's'])

/-- Embeds fetch_daily_stooq (scripts/history.py lines 167-200) around
its gating: the second component is the symbol sent upstream (none means
no request is issued and the result is empty); `upstream` stands for the
request, CSV parse, sort and trim applied to the response. -/
def fetch_daily_stooq (upstream : List Char → List Pt) (symbol : List Char) :
    List Pt × Option (List Char) :=
  match stooqQuerySymbol symbol with
  | none => ([], none)
  | some s => (upstream s, some s)

/-! Helper lemmas about sorted lists of points. -/

theorem headD_mem {l : List Pt} (h : l ≠ []) : (l.head?).getD default ∈ l := by
  cases l with
  | nil => exact absurd rfl h
  | cons a t => simp

theorem getLastD_mem {l : List Pt} (h : l ≠ []) : (l.getLast?).getD default ∈ l := by
  rw [List.getLast?_eq_head?_reverse]
  have : l.reverse ≠ [] := by simpa using h
  simpa using headD_mem this

theorem pairwise_headD_rel {r : Pt → Pt → Prop} (hrefl : ∀ a, r a a) {l : List Pt}
    (h : l.Pairwise r) : ∀ q ∈ l, r ((l.head?).getD default) q := by
  cases l with
  | nil => intro q hq; cases hq
  | cons a t =>
    intro q hq
    simp only [List.head?_cons, Option.getD_some]
    rcases List.mem_cons.mp hq with rfl | hq
    · exact hrefl q
    · exact (List.pairwise_cons.mp h).1 q hq

theorem pairwise_getLastD_rel {r : Pt → Pt → Prop} (hrefl : ∀ a, r a a) {l : List Pt}
    (h : l.Pairwise r) : ∀ q ∈ l, r q ((l.getLast?).getD default) := by
  intro q hq
  have h1 : l.reverse.Pairwise (fun a b => r b a) := List.pairwise_reverse.mpr h
  have h2 := pairwise_headD_rel (r := fun a b => r b a) (fun a => hrefl a) h1 q
    (List.mem_reverse.mpr hq)
  rw [List.getLast?_eq_head?_reverse]
  exact h2

/-- C1: coverage_ok is true exactly when the series is non-empty, has at
least 200 points, its earliest date is on or before the cutoff, and its
latest date is at most 3 calendar days before the current date; in
particular it is false for an empty series. -/
theorem coverage_ok_iff (data : List Pt) (cutoff today : Nat) :
    coverage_ok data cutoff today = true ↔
      data ≠ [] ∧ 200 ≤ data.length ∧
      (∃ p ∈ data, (∀ q ∈ data, p.date ≤ q.date) ∧ p.date ≤ cutoff) ∧
      (∃ p ∈ data, (∀ q ∈ data, q.date ≤ p.date) ∧
        (today : Int) - (p.date : Int) ≤ 3) := by
  by_cases he : data = []
  · subst he; simp [coverage_ok]
  · have hne : data.isEmpty = false := by simpa using he
    have hperm : List.Perm (data.insertionSort ptLe) data :=
      List.perm_insertionSort ptLe data
    have hsorted : (data.insertionSort ptLe).Pairwise ptLe :=
      List.sorted_insertionSort ptLe data
    have hsne : data.insertionSort ptLe ≠ [] := by
      intro h0
      exact he (List.Perm.eq_nil (h0 ▸ hperm.symm))
    have hhead_mem : ((data.insertionSort ptLe).head?).getD default ∈ data :=
      hperm.mem_iff.mp (headD_mem hsne)
    have hlast_mem : ((data.insertionSort ptLe).getLast?).getD default ∈ data :=
      hperm.mem_iff.mp (getLastD_mem hsne)
    have hhead_min : ∀ q ∈ data,
        (((data.insertionSort ptLe).head?).getD default).date ≤ q.date := by
      intro q hq
      exact pairwise_headD_rel (fun a => Nat.le_refl a.date) hsorted q (hperm.mem_iff.mpr hq)
    have hlast_max : ∀ q ∈ data,
        q.date ≤ (((data.insertionSort ptLe).getLast?).getD default).date := by
      intro q hq
      exact pairwise_getLastD_rel (fun a => Nat.le_refl a.date) hsorted q (hperm.mem_iff.mpr hq)
    rw [coverage_ok, hne]
    simp only [Bool.false_eq_true, if_false, Bool.and_eq_true, decide_eq_true_eq]
    constructor
    · rintro ⟨⟨h200, hfirst⟩, hgap⟩
      refine ⟨he, h200, ⟨_, hhead_mem, hhead_min, hfirst⟩, ⟨_, hlast_mem, hlast_max, hgap⟩⟩
    · rintro ⟨-, h200, ⟨p, hpmem, -, hpc⟩, ⟨p2, hp2mem, -, hp2t⟩⟩
      refine ⟨⟨h200, ?_⟩, ?_⟩
      · exact Nat.le_trans (hhead_min p hpmem) hpc
      · have hle : (p2.date : Int) ≤
            ((((data.insertionSort ptLe).getLast?).getD default).date : Int) := by
          exact_mod_cast hlast_max p2 hp2mem
        have := sub_le_sub_left hle (today : Int)
        exact le_trans this hp2t

/-! Helper lemmas about the embedded dict operations. -/

theorem mem_dkeys (m : List (Nat × Int)) (d : Nat) :
    d ∈ dkeys m ↔ ∃ q ∈ m, q.1 = d := by
  simp [dkeys, List.mem_map]

theorem dkeys_overwrite (m : List (Nat × Int)) (d : Nat) (c : Int) :
    dkeys (m.map (fun q => if q.1 = d then (d, c) else q)) = dkeys m := by
  induction m with
  | nil => rfl
  | cons q t ih =>
    by_cases h : q.1 = d
    · simp only [List.map_cons, dkeys] at *
      simp [h, ih]
    · simp only [List.map_cons, dkeys] at *
      simp [h, ih]

theorem dkeys_dinsert (m : List (Nat × Int)) (d : Nat) (c : Int) :
    dkeys (dinsert m d c) = if d ∈ dkeys m then dkeys m else dkeys m ++ [d] := by
  unfold dinsert
  by_cases h : d ∈ dkeys m
  · have ha : m.any (fun q => q.1 = d) = true := by
      rw [List.any_eq_true]
      obtain ⟨q, hq, hqe⟩ := (mem_dkeys m d).mp h
      exact ⟨q, hq, by simp [hqe]⟩
    simp [ha, h, dkeys_overwrite]
  · have ha : m.any (fun q => q.1 = d) = false := by
      rw [List.any_eq_false]
      intro q hq
      simp only [decide_eq_true_eq]
      intro hqe
      exact h ((mem_dkeys m d).mpr ⟨q, hq, hqe⟩)
    rw [if_neg (by simp [ha]), if_neg h]
    simp [dkeys]

theorem mem_dkeys_dinsert (m : List (Nat × Int)) (d d' : Nat) (c : Int) :
    d' ∈ dkeys (dinsert m d c) ↔ d' ∈ dkeys m ∨ d' = d := by
  rw [dkeys_dinsert]
  by_cases h : d ∈ dkeys m
  · simp only [h, if_true]
    constructor
    · exact Or.inl
    · rintro (hd | rfl)
      · exact hd
      · exact h
  · simp [h]

theorem find_overwrite_self (m : List (Nat × Int)) (d : Nat) (c : Int)
    (h : d ∈ dkeys m) :
    (m.map (fun q => if q.1 = d then (d, c) else q)).find?
      (fun q => q.1 = d) = some (d, c) := by
  induction m with
  | nil => cases h
  | cons q t ih =>
    by_cases hq : q.1 = d
    · simp [List.find?, hq]
    · have hd : d ∈ dkeys t := by
        rcases (mem_dkeys _ d).mp h with ⟨p, hp, hpe⟩
        rcases List.mem_cons.mp hp with rfl | hp
        · exact absurd hpe hq
        · exact (mem_dkeys t d).mpr ⟨p, hp, hpe⟩
      simp [List.find?, hq, ih hd]

theorem find_overwrite_ne (m : List (Nat × Int)) (d d' : Nat) (c : Int)
    (hne : d' ≠ d) :
    (m.map (fun q => if q.1 = d then (d, c) else q)).find?
      (fun q => q.1 = d') = m.find? (fun q => q.1 = d') := by
  induction m with
  | nil => rfl
  | cons q t ih =>
    by_cases hq : q.1 = d
    · have h1 : ¬((d, c).1 = d') := fun h0 => hne (h0.symm)
      have h2 : ¬(q.1 = d') := fun h0 => hne (by rw [← h0, hq])
      simp [List.find?, hq, h1, h2, ih]
    · by_cases hq' : q.1 = d'
      · simp [List.find?, hq, hq', hne]
      · simp [List.find?, hq, hq', ih]

theorem dlookup_dinsert (m : List (Nat × Int)) (d d' : Nat) (c : Int) :
    dlookup (dinsert m d c) d' = if d' = d then c else dlookup m d' := by
  by_cases hd : d' = d
  · subst hd
    unfold dinsert dlookup
    by_cases h : d' ∈ dkeys m
    · have ha : m.any (fun q => q.1 = d') = true := by
        rw [List.any_eq_true]
        obtain ⟨q, hq, hqe⟩ := (mem_dkeys m d').mp h
        exact ⟨q, hq, by simp [hqe]⟩
      rw [if_pos ha, find_overwrite_self m d' c h]
      simp
    · have ha : m.any (fun q => q.1 = d') = false := by
        rw [List.any_eq_false]
        intro q hq
        simp only [decide_eq_true_eq]
        intro hqe
        exact h ((mem_dkeys m d').mpr ⟨q, hq, hqe⟩)
      have hf : m.find? (fun q => q.1 = d') = none := by
        rw [List.find?_eq_none]
        intro q hq
        simp only [decide_eq_true_eq]
        intro hqe
        exact h ((mem_dkeys m d').mpr ⟨q, hq, hqe⟩)
      rw [if_neg (by simp [ha]), List.find?_append, hf]
      simp
  · unfold dinsert dlookup
    by_cases ha : m.any (fun q => q.1 = d)
    · rw [if_pos ha, find_overwrite_ne m d d' c hd, if_neg hd]
    · rw [if_neg ha, List.find?_append, if_neg hd]
      have hne2 : d ≠ d' := fun h0 => hd h0.symm
      have : ([(d, c)].find? (fun q => q.1 = d')) = none := by
        simp [List.find?, hne2]
      rw [this]
      cases m.find? (fun q => q.1 = d') <;> rfl

theorem dkeys_dinsert_nodup (m : List (Nat × Int)) (d : Nat) (c : Int)
    (h : (dkeys m).Nodup) : (dkeys (dinsert m d c)).Nodup := by
  rw [dkeys_dinsert]
  by_cases hd : d ∈ dkeys m
  · simpa [hd] using h
  · simp only [hd, if_false]
    rw [List.nodup_append]
    exact ⟨h, List.nodup_singleton d, by simpa using hd⟩

/-! Helper lemmas about buildMap and lastClose. -/

theorem dlookup_foldl (l : List Pt) (m : List (Nat × Int)) (d : Nat) :
    dlookup (l.foldl (fun m p => dinsert m p.date p.close) m) d =
      match lastClose l d with
      | some c => c
      | none => dlookup m d := by
  induction l generalizing m with
  | nil => rfl
  | cons p t ih =>
    rw [List.foldl_cons, ih]
    cases h : lastClose t d with
    | some c => simp [lastClose, h]
    | none =>
      by_cases hp : p.date = d
      · simp [lastClose, h, hp, dlookup_dinsert]
      · have hdp : d ≠ p.date := fun h0 => hp h0.symm
        simp [lastClose, h, hp, dlookup_dinsert, hdp]

theorem mem_dkeys_foldl (l : List Pt) (m : List (Nat × Int)) (d : Nat) :
    d ∈ dkeys (l.foldl (fun m p => dinsert m p.date p.close) m) ↔
      d ∈ dkeys m ∨ d ∈ l.map Pt.date := by
  induction l generalizing m with
  | nil => simp
  | cons p t ih =>
    rw [List.foldl_cons, ih]
    rw [mem_dkeys_dinsert]
    simp only [List.map_cons, List.mem_cons]
    constructor
    · rintro ((hm | rfl) | ht)
      · exact Or.inl hm
      · exact Or.inr (Or.inl rfl)
      · exact Or.inr (Or.inr ht)
    · rintro (hm | rfl | ht)
      · exact Or.inl (Or.inl hm)
      · exact Or.inl (Or.inr rfl)
      · exact Or.inr ht

theorem nodup_dkeys_foldl (l : List Pt) (m : List (Nat × Int))
    (h : (dkeys m).Nodup) :
    (dkeys (l.foldl (fun m p => dinsert m p.date p.close) m)).Nodup := by
  induction l generalizing m with
  | nil => exact h
  | cons p t ih =>
    rw [List.foldl_cons]
    exact ih _ (dkeys_dinsert_nodup _ _ _ h)

theorem mem_dkeys_buildMap (l : List Pt) (d : Nat) :
    d ∈ dkeys (buildMap l) ↔ d ∈ l.map Pt.date := by
  rw [buildMap, mem_dkeys_foldl]
  simp [dkeys]

theorem nodup_dkeys_buildMap (l : List Pt) : (dkeys (buildMap l)).Nodup :=
  nodup_dkeys_foldl l [] (by simp [dkeys])

theorem dlookup_buildMap (l : List Pt) (d : Nat) (c : Int)
    (h : lastClose l d = some c) : dlookup (buildMap l) d = c := by
  have := dlookup_foldl l [] d
  rw [h] at this
  exact this

theorem lastClose_append (l₁ l₂ : List Pt) (d : Nat) :
    lastClose (l₁ ++ l₂) d =
      match lastClose l₂ d with
      | some c => some c
      | none => lastClose l₁ d := by
  induction l₁ with
  | nil => cases h : lastClose l₂ d <;> simp [lastClose, h]
  | cons p t ih =>
    rw [List.cons_append]
    show (match lastClose (t ++ l₂) d with
      | some c => some c
      | none => if p.date = d then some p.close else none) = _
    rw [ih]
    cases h2 : lastClose l₂ d with
    | some c => rfl
    | none =>
      cases h3 : lastClose t d with
      | some c => simp [lastClose, h3]
      | none => simp [lastClose, h3]

theorem lastClose_eq_none (l : List Pt) (d : Nat) :
    lastClose l d = none ↔ d ∉ l.map Pt.date := by
  induction l with
  | nil => simp [lastClose]
  | cons p t ih =>
    simp only [List.map_cons, List.mem_cons]
    cases h : lastClose t d with
    | some c =>
      have : d ∈ t.map Pt.date := by
        by_contra hm
        rw [← ih] at hm
        rw [h] at hm
        cases hm
      simp [lastClose, h, this]
    | none =>
      by_cases hp : p.date = d
      · simp [lastClose, h, hp]
      · have hdp : ¬(d = p.date) := fun h0 => hp h0.symm
        simp [lastClose, h, hp, hdp, ih.mp h]

/-! Helper lemmas characterizing the output of merge_history. -/

theorem find_self_list (ks : List Nat) (d : Nat) :
    ks.find? (fun k => k = d) = if d ∈ ks then some d else none := by
  induction ks with
  | nil => rfl
  | cons k t ih =>
    by_cases hk : k = d
    · subst hk
      simp [List.find?]
    · have hdk : ¬(d = k) := fun h0 => hk h0.symm
      simp [List.find?, hk, hdk, ih]

theorem merge_history_map_date (old new : List Pt) :
    (merge_history old new).map Pt.date =
      (dkeys (buildMap (old ++ new))).insertionSort (· ≤ ·) := by
  unfold merge_history
  rw [List.map_map]
  exact List.map_id _

theorem seriesClose_merge (old new : List Pt) (d : Nat) :
    seriesClose (merge_history old new) d =
      if d ∈ (old ++ new).map Pt.date then
        some (dlookup (buildMap (old ++ new)) d)
      else none := by
  unfold seriesClose merge_history
  rw [List.find?_map]
  have hcomp :
      ((fun p => decide (p.date = d)) ∘
        (fun k => (⟨k, dlookup (buildMap (old ++ new)) k⟩ : Pt))) =
      (fun k => decide (k = d)) := by
    funext k
    rfl
  rw [hcomp, find_self_list]
  by_cases hd : d ∈ (dkeys (buildMap (old ++ new))).insertionSort (· ≤ ·)
  · have hd2 : d ∈ (old ++ new).map Pt.date := by
      rw [← mem_dkeys_buildMap]
      exact (List.mem_insertionSort _).mp hd
    rw [if_pos hd, if_pos hd2]
    rfl
  · have hd2 : d ∉ (old ++ new).map Pt.date := by
      rw [← mem_dkeys_buildMap]
      intro h0
      exact hd ((List.mem_insertionSort _).mpr h0)
    rw [if_neg hd, if_neg hd2]
    rfl

theorem lastClose_of_nodup (l : List Pt) (p : Pt)
    (hnd : (l.map Pt.date).Nodup) (hp : p ∈ l) :
    lastClose l p.date = some p.close := by
  induction l with
  | nil => cases hp
  | cons q t ih =>
    rw [List.map_cons, List.nodup_cons] at hnd
    rcases List.mem_cons.mp hp with rfl | hp
    · have : lastClose t p.date = none := (lastClose_eq_none t p.date).mpr hnd.1
      simp [lastClose, this]
    · have := ih hnd.2 hp
      simp [lastClose, this]

/-- C2: on every date present in both the existing series A and the fresh
series B, the merge records B's close for that date — fresh data wins on
conflict. -/
theorem merge_fresh_wins (A B : List Pt) (p : Pt)
    (hp : p ∈ B) (hB : (B.map Pt.date).Nodup) (_hA : p.date ∈ A.map Pt.date) :
    seriesClose (merge_history A B) p.date = some p.close := by
  have hBc : lastClose B p.date = some p.close := lastClose_of_nodup B p hB hp
  have hABc : lastClose (A ++ B) p.date = some p.close := by
    rw [lastClose_append, hBc]
  have hmem : p.date ∈ (A ++ B).map Pt.date := by
    rw [List.map_append, List.mem_append]
    exact Or.inr (List.mem_map_of_mem Pt.date hp)
  rw [seriesClose_merge, if_pos hmem, dlookup_buildMap _ _ _ hABc]

/-- Witness for C2 at a concrete collision: date 1 is in both series, the
existing close is 10, the fresh close 20, and the merge records 20. -/
theorem merge_fresh_wins_witness :
    seriesClose (merge_history [Pt.mk 1 10] [Pt.mk 1 20]) 1 = some 20 :=
  merge_fresh_wins [Pt.mk 1 10] [Pt.mk 1 20] (Pt.mk 1 20)
    (by decide) (by decide) (by decide)

/-! Helper lemmas for idempotence and strict monotonicity of the merge. -/

theorem merge_history_eq (old new : List Pt) :
    merge_history old new =
      ((dkeys (buildMap (old ++ new))).insertionSort (· ≤ ·)).map
        (fun d => ⟨d, dlookup (buildMap (old ++ new)) d⟩) := rfl

theorem mem_dates_merge (old new : List Pt) (d : Nat) :
    d ∈ (merge_history old new).map Pt.date ↔ d ∈ (old ++ new).map Pt.date := by
  rw [merge_history_map_date, List.mem_insertionSort, mem_dkeys_buildMap]

theorem nodup_dates_merge (old new : List Pt) :
    ((merge_history old new).map Pt.date).Nodup := by
  rw [merge_history_map_date]
  exact (List.perm_insertionSort _ _).nodup_iff.mpr (nodup_dkeys_buildMap _)

theorem merge_dates_pairwise_lt (old new : List Pt) :
    ((merge_history old new).map Pt.date).Pairwise (· < ·) := by
  rw [merge_history_map_date]
  have hs : ((dkeys (buildMap (old ++ new))).insertionSort (· ≤ ·)).Pairwise
      (· ≤ ·) := List.sorted_insertionSort _ _
  have hn : ((dkeys (buildMap (old ++ new))).insertionSort (· ≤ ·)).Nodup :=
    (List.perm_insertionSort _ _).nodup_iff.mpr (nodup_dkeys_buildMap _)
  exact (hs.and hn).imp (fun h => lt_of_le_of_ne h.1 h.2)

theorem lastClose_remerge (A B : List Pt) (d : Nat)
    (hd : d ∈ (A ++ B).map Pt.date) :
    lastClose (merge_history A B ++ B) d =
      some (dlookup (buildMap (A ++ B)) d) := by
  rw [lastClose_append]
  cases h : lastClose B d with
  | some c =>
    have hAB : lastClose (A ++ B) d = some c := by
      rw [lastClose_append, h]
    rw [dlookup_buildMap _ _ _ hAB]
  | none =>
    have hmem : d ∈ (merge_history A B).map Pt.date :=
      (mem_dates_merge A B d).mpr hd
    obtain ⟨p, hp, hpd⟩ := List.mem_map.mp hmem
    have hlc : lastClose (merge_history A B) p.date = some p.close :=
      lastClose_of_nodup _ p (nodup_dates_merge A B) hp
    have hpval : p = ⟨d, dlookup (buildMap (A ++ B)) d⟩ := by
      rw [merge_history_eq] at hp
      obtain ⟨k, hk, hkp⟩ := List.mem_map.mp hp
      rw [← hkp] at hpd ⊢
      simp only at hpd
      rw [hpd]
    rw [hpd] at hlc
    rw [hlc, hpval]

theorem dlookup_remerge (A B : List Pt) (d : Nat)
    (hd : d ∈ (A ++ B).map Pt.date) :
    dlookup (buildMap (merge_history A B ++ B)) d =
      dlookup (buildMap (A ++ B)) d :=
  dlookup_buildMap _ _ _ (lastClose_remerge A B d hd)

/-- C6: every series produced by merge_history has strictly increasing
(hence duplicate-free, ascending) dates, and every series the per-symbol
pipeline persists is a merge_history output and therefore also has
strictly increasing dates. -/
theorem merge_and_persist_strictly_increasing :
    (∀ old new : List Pt,
      ((merge_history old new).map Pt.date).Pairwise (· < ·)) ∧
    (∀ existing cutoff today chain s,
      processSymbol existing cutoff today chain = .write s →
      (s.map Pt.date).Pairwise (· < ·)) := by
  refine ⟨merge_dates_pairwise_lt, ?_⟩
  intro existing cutoff today chain s hw
  unfold processSymbol at hw
  by_cases hc : coverage_ok existing cutoff today = true
  · rw [if_pos hc] at hw; cases hw
  · rw [if_neg hc] at hw
    by_cases h2 : ((acquire chain).isEmpty && existing.isEmpty) = true
    · rw [if_pos h2] at hw; cases hw
    · rw [if_neg h2] at hw
      injection hw with h
      rw [← h]
      exact merge_dates_pairwise_lt _ _

/-- Witness for C6: a concrete pipeline run that writes a file, whose
written series has strictly increasing dates. -/
theorem merge_and_persist_strictly_increasing_witness :
    (([Pt.mk 1 2] : List Pt).map Pt.date).Pairwise (· < ·) :=
  merge_and_persist_strictly_increasing.2 [] 0 10 [[Pt.mk 1 2]] [Pt.mk 1 2]
    (by decide)

/-- C7: re-merging the fresh series with its own prior merge result is
idempotent: merge(merge(A, B), B) = merge(A, B). -/
theorem merge_idempotent (A B : List Pt) :
    merge_history (merge_history A B) B = merge_history A B := by
  have hkeys : ∀ d, d ∈ dkeys (buildMap (merge_history A B ++ B)) ↔
      d ∈ dkeys (buildMap (A ++ B)) := by
    intro d
    rw [mem_dkeys_buildMap, mem_dkeys_buildMap, List.map_append, List.map_append,
      List.mem_append, List.mem_append]
    have h1 := mem_dates_merge A B d
    rw [List.map_append, List.mem_append] at h1
    constructor
    · rintro (hm | hb)
      · exact h1.mp hm
      · exact Or.inr hb
    · rintro (ha | hb)
      · exact Or.inl (h1.mpr (Or.inl ha))
      · exact Or.inr hb
  have hn₁ : ((dkeys (buildMap (A ++ B))).insertionSort (· ≤ ·)).Nodup :=
    (List.perm_insertionSort _ _).nodup_iff.mpr (nodup_dkeys_buildMap _)
  have hn₂ : ((dkeys (buildMap (merge_history A B ++ B))).insertionSort
      (· ≤ ·)).Nodup :=
    (List.perm_insertionSort _ _).nodup_iff.mpr (nodup_dkeys_buildMap _)
  have hperm : List.Perm
      ((dkeys (buildMap (merge_history A B ++ B))).insertionSort (· ≤ ·))
      ((dkeys (buildMap (A ++ B))).insertionSort (· ≤ ·)) := by
    rw [List.perm_ext_iff_of_nodup hn₂ hn₁]
    intro d
    rw [List.mem_insertionSort, List.mem_insertionSort]
    exact hkeys d
  have hS : ((dkeys (buildMap (merge_history A B ++ B))).insertionSort (· ≤ ·))
      = ((dkeys (buildMap (A ++ B))).insertionSort (· ≤ ·)) :=
    List.eq_of_perm_of_sorted hperm (List.sorted_insertionSort _ _)
      (List.sorted_insertionSort _ _)
  rw [merge_history_eq (merge_history A B) B, hS]
  conv_rhs => rw [merge_history_eq A B]
  apply List.map_congr_left
  intro d hd
  have hdm : d ∈ (A ++ B).map Pt.date := by
    rw [← mem_dkeys_buildMap]
    exact (List.mem_insertionSort _).mp hd
  rw [dlookup_remerge A B d hdm]

/-! Helper lemmas for the fallback chain and the pipeline effect. -/

theorem acquire_all_empty (chain : List (List Pt)) (h : ∀ r ∈ chain, r = []) :
    acquire chain = [] := by
  induction chain with
  | nil => rfl
  | cons r rest ih =>
    have hr : r = [] := h r (List.mem_cons_self r rest)
    simp [acquire, hr, ih (fun x hx => h x (List.mem_cons_of_mem r hx))]

/-- C3: the fallback logic consults adapters strictly in chain order:
when the first k adapters return empty and adapter k returns a non-empty
series, the result is that series and exactly k+1 adapters are invoked,
so no later provider is consulted; and when every adapter in the chain
returns empty the overall result is empty. -/
theorem acquire_first_nonempty_result (chain : List (List Pt)) :
    (∀ k r, chain[k]? = some r → r ≠ [] →
      (∀ j rj, j < k → chain[j]? = some rj → rj = []) →
      acquire chain = r ∧ acquireCalls chain = k + 1) ∧
    ((∀ r ∈ chain, r = []) → acquire chain = []) := by
  constructor
  · intro k
    induction chain generalizing k with
    | nil => intro r hr; simp at hr
    | cons r₀ rest ih =>
      intro r hr hne hprev
      cases k with
      | zero =>
        rw [List.getElem?_cons_zero] at hr
        injection hr with hr
        have hie : r₀.isEmpty = false := by
          rw [hr]
          cases r with
          | nil => exact absurd rfl hne
          | cons a t => rfl
        constructor
        · simp [acquire, hie]
          exact hr
        · simp [acquireCalls, hie]
      | succ k =>
        have h0 : r₀ = [] := hprev 0 r₀ (Nat.succ_pos k) (by simp)
        have hrest := ih k r (by simpa using hr) hne
          (fun j rj hj hg => hprev (j + 1) rj (Nat.succ_lt_succ hj) (by simpa using hg))
        constructor
        · simp [acquire, h0, hrest.1]
        · simp [acquireCalls, h0, hrest.2]
  · exact acquire_all_empty chain

/-- Witness for C3: in a chain whose first adapter is empty and whose
second returns data, the result is the second adapter's series and only
two adapters are invoked. -/
theorem acquire_first_nonempty_result_witness :
    acquire [[], [Pt.mk 1 2], [Pt.mk 9 9]] = [Pt.mk 1 2] ∧
    acquireCalls [[], [Pt.mk 1 2], [Pt.mk 9 9]] = 2 :=
  (acquire_first_nonempty_result _).1 1 [Pt.mk 1 2] (by decide) (by decide)
    (by
      intro j rj hj hg
      have hj0 : j = 0 := Nat.lt_one_iff.mp hj
      subst hj0
      rw [List.getElem?_cons_zero] at hg
      injection hg with hg
      exact hg.symm)

theorem seriesClose_merge_nil (existing : List Pt) (d : Nat) :
    seriesClose (merge_history existing []) d = lastClose existing d := by
  rw [seriesClose_merge, List.append_nil]
  by_cases hd : d ∈ existing.map Pt.date
  · rw [if_pos hd]
    cases h : lastClose existing d with
    | none => exact absurd hd ((lastClose_eq_none existing d).mp h)
    | some c => rw [dlookup_buildMap existing d c h]
  · rw [if_neg hd, (lastClose_eq_none existing d).mpr hd]

/-- C5 counterexample: the existing series holds one stale point (date 0,
older than the cutoff, fewer than 200 entries) and every provider in the
chain returns empty, yet the pipeline does not skip writing: it writes
the merge of the existing series with the empty fresh series. -/
theorem pipeline_writes_despite_empty_fetch :
    processSymbol [Pt.mk 0 1] 300 400 [[], [], []] = .write [Pt.mk 0 1] := by
  decide

/-- C5 amended: when every provider in the chain returns empty, a symbol
with no existing record is skipped with nothing written; but a symbol
with a non-empty existing record (of insufficient coverage) has its file
rewritten with merge(existing, empty), a series carrying exactly the
existing dates with their existing (latest-occurrence) closes. -/
theorem all_empty_chain_effect (existing : List Pt) (cutoff today : Nat)
    (chain : List (List Pt)) (hchain : ∀ r ∈ chain, r = []) :
    (existing = [] → processSymbol existing cutoff today chain = .skipNoData) ∧
    (existing ≠ [] → coverage_ok existing cutoff today = false →
      processSymbol existing cutoff today chain =
        .write (merge_history existing []) ∧
      (∀ d, d ∈ (merge_history existing []).map Pt.date ↔
        d ∈ existing.map Pt.date) ∧
      (∀ d, seriesClose (merge_history existing []) d = lastClose existing d)) := by
  have hfresh : acquire chain = [] := acquire_all_empty chain hchain
  constructor
  · intro he
    subst he
    simp [processSymbol, coverage_ok, hfresh]
  · intro hne hcov
    have hie : existing.isEmpty = false := by
      cases existing with
      | nil => exact absurd rfl hne
      | cons a t => rfl
    refine ⟨?_, ?_, fun d => seriesClose_merge_nil existing d⟩
    · simp [processSymbol, hcov, hfresh, hie]
    · intro d
      have := mem_dates_merge existing [] d
      rwa [List.append_nil] at this

/-- Witness for C5 amended: a concrete stale one-point series with an
all-empty chain leads to a rewrite of the merged existing data. -/
theorem all_empty_chain_effect_witness :
    processSymbol [Pt.mk 0 1] 300 400 [[]] = .write (merge_history [Pt.mk 0 1] []) :=
  ((all_empty_chain_effect [Pt.mk 0 1] 300 400 [[]]
    (by intro r hr; simpa using hr)).2 (by decide) (by decide)).1

/-- C4 counterexample: the adapters do raise past their own boundary —
the worker adapter turns an HTTP 500 response into a raised HTTPError and
the finnhub adapter propagates a transport exception, instead of handing
an empty result to the caller. -/
theorem adapter_raises_not_empty :
    fetch_daily_worker true (.response 500 .notJson) = .error "HTTPError" ∧
    fetch_daily_finnhub (.transportError "timeout") = .error "timeout" := by
  constructor <;> rfl

/-- C4 amended: the worker and finnhub adapters convert a failing
upstream outcome either into an empty result or into a raised exception;
it is the per-call try/except wrapper in main (guardFetch) that turns
every such failure into an empty fresh series, so no upstream failure
propagates past the adapter call site in the pipeline. -/
theorem guarded_adapter_failure_empty :
    (∀ out : HttpOutcome WBody, workerFailure out = true →
      guardFetch (fetch_daily_worker true out) = []) ∧
    (∀ out : HttpOutcome FBody, finnhubFailure out = true →
      guardFetch (fetch_daily_finnhub out) = []) := by
  constructor
  · intro out h
    cases out with
    | transportError m => rfl
    | response status body =>
      by_cases h404 : status = 404
      · simp [fetch_daily_worker, h404, guardFetch]
      · by_cases h400 : 400 ≤ status
        · simp [fetch_daily_worker, h404, h400, guardFetch]
        · cases body with
          | notJson => simp [fetch_daily_worker, h404, h400, guardFetch]
          | notList => simp [fetch_daily_worker, h404, h400, guardFetch]
          | list items =>
            have hemp : (normalizeWorker items).isEmpty = true := by
              simpa [workerFailure, h404, h400] using h
            simp [fetch_daily_worker, h404, h400, hemp, guardFetch]
  · intro out h
    cases out with
    | transportError m => rfl
    | response status body =>
      by_cases h400 : 400 ≤ status
      · simp [fetch_daily_finnhub, h400, guardFetch]
      · cases body with
        | notJson => simp [fetch_daily_finnhub, h400, guardFetch]
        | notDict => simp [fetch_daily_finnhub, h400, guardFetch]
        | dict sOk c t =>
          cases sOk with
          | false => simp [fetch_daily_finnhub, h400, guardFetch]
          | true =>
            have hck : (c.isEmpty || t.isEmpty || c.length != t.length) = true := by
              simpa [finnhubFailure, h400] using h
            simp [fetch_daily_finnhub, h400, hck, guardFetch]

/-- Witness for C4 amended: concrete failing outcomes for both adapters
are converted to empty series by the pipeline wrapper. -/
theorem guarded_adapter_failure_empty_witness :
    guardFetch (fetch_daily_worker true (.response 500 .notJson)) = [] ∧
    guardFetch (fetch_daily_finnhub (.transportError "boom")) = [] :=
  ⟨guarded_adapter_failure_empty.1 (.response 500 .notJson) (by decide),
   guarded_adapter_failure_empty.2 (.transportError "boom") rfl⟩

/-- C9: each Yahoo host request is retried within a budget of 3 attempts:
two rate-limited attempts followed by a successful third return that
payload (normalized) no matter what later attempt outcomes or the second
host would have produced; three rate-limited attempts exhaust the host
regardless of any further outcomes; and a non-empty adapter result
short-circuits the provider chain after one invocation, so no later
provider is consulted. -/
theorem yahoo_retry_budget (pts : List (Nat × Option Int))
    (extra extra2 h2 : List YOut) (rest : List (List Pt))
    (hne : normalizeYahoo pts ≠ []) :
    fetch_daily_yahoo ([.rateLimited, .rateLimited, .payload pts] ++ extra) h2
      = normalizeYahoo pts ∧
    fetch_daily_yahoo ([.rateLimited, .rateLimited, .rateLimited] ++ extra2) h2
      = fetch_daily_yahoo [] h2 ∧
    acquire (normalizeYahoo pts :: rest) = normalizeYahoo pts ∧
    acquireCalls (normalizeYahoo pts :: rest) = 1 := by
  have hie : (normalizeYahoo pts).isEmpty = false := by
    cases hn : normalizeYahoo pts with
    | nil => exact absurd hn hne
    | cons a t => rfl
  refine ⟨?_, ?_, ?_, ?_⟩
  · simp [fetch_daily_yahoo, yahooHostLoop, List.cons_append, List.take_succ_cons]
  · simp [fetch_daily_yahoo, yahooHostLoop, List.cons_append, List.take_succ_cons]
  · simp [acquire, hie]
  · simp [acquireCalls, hie]

/-- Witness for C9: a rate-limited host that succeeds on the third
attempt yields that payload. -/
theorem yahoo_retry_budget_witness :
    fetch_daily_yahoo [.rateLimited, .rateLimited, .payload [(5, some 7)]] []
      = normalizeYahoo [(5, some 7)] :=
  (yahoo_retry_budget [(5, some 7)] [] [] [] [[]] (by decide)).1

/-- C10: a dotted symbol whose lower-cased suffix after the last dot is
not "us" makes the Stooq adapter return an empty list with no upstream
request, while an undotted symbol is sent upstream lower-cased with
".us" appended. -/
theorem stooq_symbol_gate (upstream : List Char → List Pt)
    (symbol : List Char) :
    ((pyLower symbol).contains '.' = true →
      (splitOnDot (pyLower symbol)).getLastD [] ≠ ['u', 's'] →
      fetch_daily_stooq upstream symbol = ([], none)) ∧
    ((pyLower symbol).contains '.' = false →
      fetch_daily_stooq upstream symbol =
        (upstream (pyLower symbol ++ ['.', 'u', 's']),
         some (pyLower symbol ++ ['.', 'u', 's']))) := by
  constructor
  · intro hdot hsuff
    unfold fetch_daily_stooq stooqQuerySymbol
    rw [if_pos hdot, if_pos hsuff]
  · intro hdot
    unfold fetch_daily_stooq stooqQuerySymbol
    rw [if_neg (by rw [hdot]; exact Bool.false_ne_true)]

/-- Witness for C10: the Shanghai symbol 600519.SS is rejected without a
request, and AAPL is sent upstream as aapl.us. -/
theorem stooq_symbol_gate_witness :
    fetch_daily_stooq (fun _ => []) ['6', '0', '0', '5', '1', '9', '.', 'S', 'S']
      = ([], none) ∧
    (fetch_daily_stooq (fun _ => []) ['A', 'A', 'P', 'L']).2
      = some ['a', 'a', 'p', 'l', '.', 'u', 's'] := by
  constructor
  · exact (stooq_symbol_gate (fun _ => [])
      ['6', '0', '0', '5', '1', '9', '.', 'S', 'S']).1 (by decide) (by decide)
  · rw [(stooq_symbol_gate (fun _ => []) ['A', 'A', 'P', 'L']).2 (by decide)]
    decide

/-- C8 counterexample: a present record that parses to the JSON number 5
is returned as-is by load_existing — not as an empty series — and
coverage evaluation on it raises an AttributeError instead of returning
false, so no fresh fetch is reached for that symbol. -/
theorem malformed_record_not_treated_empty :
    load_existing (some (some (Json.num 5))) ≠ Json.arr [] ∧
    coverage_ok_dyn (fun _ => none) (load_existing (some (some (Json.num 5))))
      "2024-01-01" 0 = .error "AttributeError: no sort" := by
  constructor
  · intro h
    exact Json.noConfusion h
  · rfl

/-- C8 amended: an absent or unparsable record is treated as the empty
series — load yields the empty array and coverage returns false, so a
fresh fetch is attempted; but a record that parses to a truthy non-array
JSON value is returned as-is by load and makes coverage evaluation raise
an error, which the per-symbol handler catches: the symbol is skipped for
that run without a fetch, and the batch continues (the run never
aborts). -/
theorem load_malformed_behaviour (parseDate : String → Option Nat)
    (cutoff : String) (today : Nat) :
    load_existing none = Json.arr [] ∧
    load_existing (some none) = Json.arr [] ∧
    coverage_ok_dyn parseDate (Json.arr []) cutoff today = .ok false ∧
    (∀ j : Json, jsonTruthy j = true → (∀ xs, j ≠ Json.arr xs) →
      coverage_ok_dyn parseDate j cutoff today =
        .error "AttributeError: no sort") := by
  refine ⟨rfl, rfl, rfl, ?_⟩
  intro j hj hnotarr
  cases j with
  | arr xs => exact absurd rfl (hnotarr xs)
  | null => exact absurd hj (by decide)
  | num n =>
    unfold coverage_ok_dyn
    rw [hj]
    rfl
  | str s =>
    unfold coverage_ok_dyn
    rw [hj]
    rfl
  | obj fs =>
    unfold coverage_ok_dyn
    rw [hj]
    rfl

/-- Witness for C8 amended: a record parsing to the number 7 makes the
dynamic coverage evaluation raise. -/
theorem load_malformed_behaviour_witness :
    coverage_ok_dyn (fun _ => none) (Json.num 7) "2024-01-01" 0 =
      .error "AttributeError: no sort" :=
  (load_malformed_behaviour (fun _ => none) "2024-01-01" 0).2.2.2 (Json.num 7)
    (by decide) (fun xs h => Json.noConfusion h)
